import Mathlib

/-!
# ConcurrentTrafficSimulator: `src/TrafficLight.cpp`

A shallow embedding of the message queue and of the traffic light of
`TrafficLight.cpp`, followed by the properties proved about them.

Conventions of the embedding.

* `std::deque<T> _queue` is a `List T`: `front`/`pop_front` work on the head,
  `push_back` appends at the tail.
* Every method body that runs under the queue mutex is one atomic step.  A
  `receive()` whose wait predicate `!_queue.empty()` is false does not
  complete: the step yields no value and leaves the queue as it is.
* Stateful methods pass the object explicitly and return its new state.
* `std::chrono::system_clock::now()` and `distr(eng)` are inputs of the code:
  each loop iteration of `cycleThroughPhases` is given the readings it makes.
* Clock readings are 64-bit tick counts; their difference is taken in 64 bits,
  wrapping around as the machine does.
-/

namespace TrafficSim

/-! ## MessageQueue -/

/-- Modelled from the spec: the declaration of the class template
`MessageQueue<T>` (in `TrafficLight.h`, which is not among the sources).  The
spec gives it as an ordered sequence of `T` awaiting delivery, plus a lock and a
wait/notify condition; the code uses the member `_queue` through `empty`,
`front`, `pop_front` and `push_back`.  The lock and the condition carry no data:
they are what makes each method body an atomic step. -/
structure MessageQueue (T : Type) where
  _queue : List T
  deriving DecidableEq, Repr

/-- A queue as created by `std::make_shared<MessageQueue<T>>()`. -/
def MessageQueue.empty {T : Type} : MessageQueue T := ⟨[]⟩

/-- Method `MessageQueue<T>::receive` (lines 12-23).  `_cond.wait(uLock, pred)` lets
the caller through only when `!_queue.empty()`; then the front element is moved
out and popped.  On an empty queue the caller stays suspended: no value, queue
untouched. -/
def MessageQueue.receive {T : Type} (q : MessageQueue T) : Option T × MessageQueue T :=
  match q._queue with
  | [] => (none, q)
  | msg :: rest => (some msg, ⟨rest⟩)

/-- Method `MessageQueue<T>::send` (lines 25-33): `_queue.push_back(msg)` under the
lock (`notify_one` only wakes a suspended receiver). -/
def MessageQueue.send {T : Type} (q : MessageQueue T) (msg : T) : MessageQueue T :=
  ⟨q._queue ++ [msg]⟩

/-- The calls `send(s1); ...; send(sn)` in this order. -/
def sendAll {T : Type} (q : MessageQueue T) (msgs : List T) : MessageQueue T :=
  msgs.foldl MessageQueue.send q

/-- Run `n` consecutive `receive()` calls of one caller, with no send in between.
The result is `none` when one of them finds the queue empty (it would never
return); otherwise the values returned, in call order, and the queue left. -/
def receiveN {T : Type} : Nat → MessageQueue T → Option (List T × MessageQueue T)
  | 0, q => some ([], q)
  | n + 1, q =>
    match q.receive with
    | (none, _) => none
    | (some msg, q') =>
      match receiveN n q' with
      | none => none
      | some (msgs, q'') => some (msg :: msgs, q'')

/-- One atomic step on a shared queue, tagged with the thread that makes it:
a producer's `send(msg)` or a consumer's attempt to complete `receive()`. -/
inductive QueueOp (T : Type) where
  | send (producer : Nat) (msg : T)
  | receive (consumer : Nat)
  deriving DecidableEq, Repr

/-- Run an interleaving of atomic queue steps.  The first component collects, in
order, every value handed out by a completed `receive()` together with the
consumer that got it; a `receive` step on an empty queue completes nothing. -/
def runOps {T : Type} : List (QueueOp T) → MessageQueue T → List (Nat × T) × MessageQueue T
  | [], q => ([], q)
  | QueueOp.send _ msg :: ops, q => runOps ops (q.send msg)
  | QueueOp.receive c :: ops, q =>
    match q.receive with
    | (none, q') => runOps ops q'
    | (some msg, q') => ((c, msg) :: (runOps ops q').1, (runOps ops q').2)

/-- The values passed to `send` in an interleaving, in send order. -/
def sentValues {T : Type} : List (QueueOp T) → List T
  | [] => []
  | QueueOp.send _ msg :: ops => msg :: sentValues ops
  | QueueOp.receive _ :: ops => sentValues ops

/-! ## TrafficLight -/

/-- Modelled from the spec: the declaration of the enumeration
`TrafficLightPhase` (in `TrafficLight.h`, which is not among the sources); the
spec gives the phase as the enumeration {red, green}, the two values the code
uses. -/
inductive TrafficLightPhase where
  | red
  | green
  deriving DecidableEq, Repr

/-- Modelled from the spec: the declaration of the class `TrafficLight` (in
`TrafficLight.h`, which is not among the sources).  The spec gives the current
phase and a queue of phases shared by the cycling task and the waiters; these
are the members `_currentPhase` and `queue` the code reads and writes.  The
thread handles kept in `threads` hold no data the code looks at. -/
structure TrafficLight where
  _currentPhase : TrafficLightPhase
  queue : MessageQueue TrafficLightPhase
  deriving DecidableEq, Repr

/-- The constructor `TrafficLight::TrafficLight()` (lines 39-43). -/
def TrafficLight.new : TrafficLight :=
  { _currentPhase := TrafficLightPhase.red, queue := MessageQueue.empty }

/-- Method `TrafficLight::getCurrentPhase` (lines 60-63): the value returned and the
object after the call. -/
def TrafficLight.getCurrentPhase (l : TrafficLight) : TrafficLightPhase × TrafficLight :=
  (l._currentPhase, l)

/-- What one pass through the body of the `while (true)` loop of
`waitForGreen` (lines 52-56) does. -/
inductive WaitStep where
  /-- The call `receive()` found the queue empty: the caller is suspended inside it. -/
  | blocked (l : TrafficLight)
  /-- The call `receive()` returned a value other than green: the loop goes round again. -/
  | again (l : TrafficLight)
  /-- The call `receive()` returned green: `waitForGreen` returns. -/
  | returned (l : TrafficLight)
  deriving DecidableEq, Repr

/-- The loop body of `TrafficLight::waitForGreen` (lines 52-56): sleep 1 ms (no
effect on the state), `phase = queue->receive()`, return if it is green. -/
def TrafficLight.waitForGreenIteration (l : TrafficLight) : WaitStep :=
  match l.queue.receive with
  | (none, q) => WaitStep.blocked { l with queue := q }
  | (some phase, q) =>
    if phase = TrafficLightPhase.green then WaitStep.returned { l with queue := q }
    else WaitStep.again { l with queue := q }

/-- How a run of `waitForGreen` with no concurrent `send` stands after a bounded
number of loop iterations; `receives` counts the `receive()` calls completed. -/
inductive WaitOutcome where
  /-- The call of `waitForGreen` has returned. -/
  | returned (l : TrafficLight) (receives : Nat)
  /-- The caller is suspended in `receive()` on an empty queue. -/
  | blocked (l : TrafficLight) (receives : Nat)
  /-- The iteration bound was reached with the loop still running. -/
  | running (l : TrafficLight) (receives : Nat)
  deriving DecidableEq, Repr

/-- The loop of `waitForGreen` run for at most `fuel` iterations, `n` receives
having completed before. -/
def TrafficLight.waitForGreenLoop : Nat → TrafficLight → Nat → WaitOutcome
  | 0, l, n => WaitOutcome.running l n
  | fuel + 1, l, n =>
    match l.waitForGreenIteration with
    | WaitStep.blocked l' => WaitOutcome.blocked l' n
    | WaitStep.returned l' => WaitOutcome.returned l' (n + 1)
    | WaitStep.again l' => TrafficLight.waitForGreenLoop fuel l' (n + 1)

/-- Method `TrafficLight::waitForGreen` (lines 45-58), run for at most `fuel` loop
iterations with no concurrent `send`. -/
def TrafficLight.waitForGreen (fuel : Nat) (l : TrafficLight) : WaitOutcome :=
  l.waitForGreenLoop fuel 0

/-! ## The cycling task -/

/-- A value produced by a `std::uniform_int_distribution<int>` constructed with
the bounds `a` and `b`: the library returns an integer of the closed range
`[a, b]`. -/
structure UniformInt (a b : Int) where
  val : Int
  lo : a ≤ val
  hi : val ≤ b

/-- A result of `distr(eng)` for `distr(4000, 6000)` of line 80. -/
abbrev Draw := UniformInt 4000 6000

/-- The local state of `cycleThroughPhases` across loop iterations, with the
traffic light it works on.  Times are `system_clock` readings in clock ticks. -/
structure CycleState where
  light : TrafficLight
  duration : Int
  prev : Int

/-- What one loop iteration of `cycleThroughPhases` reads from its environment:
the clock at line 84, and, should the cycle have expired, the clock at line 95
and the next random duration at line 96. -/
structure Tick where
  now1 : Int
  now2 : Int
  draw : Draw

/-- The value a 64-bit signed integer holds for the mathematical result `x`
(two's complement wrap-around): `x` itself when it lies in
`[-2^63, 2^63)`. -/
def wrap64 (x : Int) : Int :=
  (x + 9223372036854775808) % 18446744073709551616 - 9223372036854775808

/-- Line 84: `duration_cast<milliseconds>(now - prev).count()`.  The readings
`now` and `prev` are 64-bit `system_clock` tick counts and their difference is
taken in 64 bits; `ticksPerMs` is the number of ticks in a millisecond (a
property of the platform: 1000000 for a nanosecond clock), by which
`duration_cast` divides, truncating towards zero. -/
def time_elapsed (ticksPerMs now prev : Int) : Int :=
  (wrap64 (now - prev)).tdiv ticksPerMs

/-- The test of line 86, `duration <= time_elapsed`, for a clock reading `now`. -/
def expired (ticksPerMs now : Int) (s : CycleState) : Bool :=
  decide (s.duration ≤ time_elapsed ticksPerMs now s.prev)

/-- Lines 87-92: toggle `_currentPhase`. -/
def togglePhase (s : CycleState) : CycleState :=
  { s with
    light :=
      { s.light with
        _currentPhase :=
          if s.light._currentPhase = TrafficLightPhase.green then TrafficLightPhase.red
          else TrafficLightPhase.green } }

/-- Lines 93-96: `send` a copy of `_currentPhase` to the queue and wait for the
call to finish, then `prev = now()` and `duration = distr(eng)`. -/
def publishPhase (now2 : Int) (draw : Draw) (s : CycleState) : CycleState :=
  { light := { s.light with queue := s.light.queue.send s.light._currentPhase },
    duration := draw.val,
    prev := now2 }

/-- One iteration of the loop of `cycleThroughPhases` (lines 84-98); the sleep of
line 98 changes nothing in the state. -/
def cycleIteration (ticksPerMs : Int) (t : Tick) (s : CycleState) : CycleState :=
  if expired ticksPerMs t.now1 s then publishPhase t.now2 t.draw (togglePhase s) else s

/-- Lines 78-82 of `cycleThroughPhases`: the first duration `d0` is drawn and the
clock reading `t0` is stored in `prev`. -/
def cycleStart (d0 : Draw) (t0 : Int) (l : TrafficLight) : CycleState :=
  { light := l, duration := d0.val, prev := t0 }

/-- Method `TrafficLight::simulate` (lines 65-69): start one thread running
`cycleThroughPhases` on this object.  The result is that task as it enters its
loop, `d0` and `t0` being the draw and the clock reading of lines 81-82. -/
abbrev TrafficLight.simulate (l : TrafficLight) (d0 : Draw) (t0 : Int) : CycleState :=
  cycleStart d0 t0 l

/-- The loop of `cycleThroughPhases` run for the iterations `ticks`. -/
def cycleLoop (ticksPerMs : Int) (ticks : List Tick) (s : CycleState) : CycleState :=
  ticks.foldl (fun s t => cycleIteration ticksPerMs t s) s

/-- Method `TrafficLight::cycleThroughPhases` (lines 72-100), the task started by
`simulate()`, after the loop iterations `ticks`.  The loop never exits; its
behaviour is the family of these states over all finite `ticks`. -/
def cycleThroughPhases (ticksPerMs : Int) (d0 : Draw) (t0 : Int) (ticks : List Tick)
    (l : TrafficLight) : CycleState :=
  cycleLoop ticksPerMs ticks (cycleStart d0 t0 l)

/-- Number of iterations among `ticks`, run from `s`, in which the test of line
86 succeeded (the toggles). -/
def toggles (ticksPerMs : Int) : List Tick → CycleState → Nat
  | [], _ => 0
  | t :: ts, s =>
    (if expired ticksPerMs t.now1 s then 1 else 0)
      + toggles ticksPerMs ts (cycleIteration ticksPerMs t s)

/-- The values `_currentPhase` takes over the iterations `ticks` run from `s`:
the new value after each iteration that changed it, in order. -/
def phaseHistory (ticksPerMs : Int) : List Tick → CycleState → List TrafficLightPhase
  | [], _ => []
  | t :: ts, s =>
    (if (cycleIteration ticksPerMs t s).light._currentPhase = s.light._currentPhase then []
      else [(cycleIteration ticksPerMs t s).light._currentPhase])
      ++ phaseHistory ticksPerMs ts (cycleIteration ticksPerMs t s)

/-- What the cycling task maintains from a fresh traffic light: the queue (the
values published, nobody receiving) alternates, starts with green when not
empty, ends with the current phase when not empty, and the phase is red while
it is empty. -/
def Alternating (s : CycleState) : Prop :=
  s.light.queue._queue.Chain' (fun a b => a ≠ b)
    ∧ (∀ x, s.light.queue._queue.head? = some x → x = TrafficLightPhase.green)
    ∧ (∀ x, s.light.queue._queue.getLast? = some x → x = s.light._currentPhase)
    ∧ (s.light.queue._queue = [] → s.light._currentPhase = TrafficLightPhase.red)

/-! ## The cycling task and a waiter running concurrently -/

/-- An atomic step of an execution with one cycling task and one caller of
`waitForGreen`.  An iteration of `cycleThroughPhases` touches shared data twice,
so it is two steps: the write to `_currentPhase`, then the `send`. -/
inductive Event where
  /-- Cycling task, lines 84-92: read the clock, test, toggle the phase. -/
  | toggle (now1 : Int)
  /-- Cycling task, lines 93-96: publish the phase, reset `prev` and `duration`. -/
  | publish (now2 : Int) (draw : Draw)
  /-- Waiter: one iteration of the loop of `waitForGreen`. -/
  | waiter

/-- The state of such an execution. -/
structure System where
  cyc : CycleState
  /-- The cycling task has toggled the phase and not yet sent it. -/
  pending : Bool
  /-- The call of `waitForGreen` has returned. -/
  waiterDone : Bool

/-- The state after `simulate()` on a fresh traffic light, with one caller about
to run `waitForGreen`. -/
def System.init (d0 : Draw) (t0 : Int) : System :=
  { cyc := TrafficLight.new.simulate d0 t0, pending := false, waiterDone := false }

/-- The effect of one step.  A step that is not the next one of its thread
(a `toggle` between the phase write and its `send`, a `publish` with nothing to
send, a waiter step after the return) changes nothing, and so does a waiter step
that finds the queue empty. -/
def System.step (ticksPerMs : Int) (e : Event) (s : System) : System :=
  match e with
  | Event.toggle now1 =>
    if s.pending then s
    else if expired ticksPerMs now1 s.cyc then { s with cyc := togglePhase s.cyc, pending := true }
    else s
  | Event.publish now2 draw =>
    if s.pending then { s with cyc := publishPhase now2 draw s.cyc, pending := false }
    else s
  | Event.waiter =>
    if s.waiterDone then s
    else
      match s.cyc.light.waitForGreenIteration with
      | WaitStep.blocked l => { s with cyc := { s.cyc with light := l } }
      | WaitStep.again l => { s with cyc := { s.cyc with light := l } }
      | WaitStep.returned l => { s with cyc := { s.cyc with light := l }, waiterDone := true }

/-- The state after the steps `es`. -/
def System.run (ticksPerMs : Int) (es : List Event) (s : System) : System :=
  es.foldl (fun s e => System.step ticksPerMs e s) s

/-- The values a step appends to the queue: what the queue after the step holds
beyond the length it had before. -/
def publishedBy (ticksPerMs : Int) (e : Event) (s : System) : List TrafficLightPhase :=
  (System.step ticksPerMs e s).cyc.light.queue._queue.drop s.cyc.light.queue._queue.length

/-- The values published to the queue over the steps `es` run from `s`, in order. -/
def published (ticksPerMs : Int) : List Event → System → List TrafficLightPhase
  | [], _ => []
  | e :: es, s => publishedBy ticksPerMs e s ++ published ticksPerMs es (System.step ticksPerMs e s)

/-- A first duration of 4000 ms. -/
def draw4000 : Draw := ⟨4000, by decide, by decide⟩

/-- An execution on a nanosecond clock started at 0 in which the waiter is
served promptly: the cycle expires at 4000 ms, green is published, the waiter
receives it. -/
def promptExecution : List Event :=
  [Event.waiter,
   Event.toggle 4000000000, Event.publish 4000000000 draw4000,
   Event.waiter]

/-- An execution on a nanosecond clock started at 0 in which the waiter calls
`waitForGreen` at once and is suspended on the empty queue, the cycling task
toggles and publishes at 4000 ms (green) and again at 8000 ms (red), and only
then the waiter gets to complete its `receive()`. -/
def lateExecution : List Event :=
  [Event.waiter,
   Event.toggle 4000000000, Event.publish 4000000000 draw4000,
   Event.toggle 8000000000, Event.publish 8000000000 draw4000,
   Event.waiter]

/-- What every execution from `System.init` maintains, `pub` being the values
published so far: the queue is what remains of `pub` after the waiter's
receives; with no toggle awaiting its `send`, the last published value is the
current phase; before the first publication the phase is red, or green with its
`send` pending; the first published value is green; the waiter returns only
after a publication, and if it has returned and the queue is empty, the last
published value is green. -/
def SystemInv (s : System) (pub : List TrafficLightPhase) : Prop :=
  (∃ pre, pub = pre ++ s.cyc.light.queue._queue)
    ∧ (s.pending = false → ∀ x, pub.getLast? = some x → x = s.cyc.light._currentPhase)
    ∧ (pub = [] →
        (s.pending = false → s.cyc.light._currentPhase = TrafficLightPhase.red)
          ∧ (s.pending = true → s.cyc.light._currentPhase = TrafficLightPhase.green))
    ∧ (∀ x, pub.head? = some x → x = TrafficLightPhase.green)
    ∧ (s.waiterDone = true → pub ≠ [])
    ∧ (s.waiterDone = true → s.cyc.light.queue._queue = [] →
        pub.getLast? = some TrafficLightPhase.green)

/-! ### Lemmas on the queue -/

theorem sendAll_queue {T : Type} (msgs : List T) (q : MessageQueue T) :
    (sendAll q msgs)._queue = q._queue ++ msgs := by
  induction msgs generalizing q with
  | nil => simp [sendAll]
  | cons m ms ih =>
    have h := ih (q.send m)
    simp only [sendAll, List.foldl_cons] at h ⊢
    rw [h]
    simp [MessageQueue.send]

theorem receiveN_append {T : Type} (s r : List T) :
    receiveN s.length (⟨s ++ r⟩ : MessageQueue T) = some (s, ⟨r⟩) := by
  induction s with
  | nil => simp [receiveN]
  | cons a s ih => simp [receiveN, MessageQueue.receive, ih]

theorem runOps_conservation {T : Type} (ops : List (QueueOp T)) (q : MessageQueue T) :
    (runOps ops q).1.map Prod.snd ++ (runOps ops q).2._queue = q._queue ++ sentValues ops := by
  induction ops generalizing q with
  | nil => simp [runOps, sentValues]
  | cons op ops ih =>
    cases op with
    | send p msg =>
      simp only [runOps, sentValues]
      rw [ih]
      simp [MessageQueue.send]
    | receive c =>
      cases hq : q._queue with
      | nil =>
        have h := ih q
        simp only [runOps, sentValues, MessageQueue.receive, hq] at h ⊢
        simpa [hq] using h
      | cons a rest =>
        have h := ih ⟨rest⟩
        simp only [runOps, sentValues, MessageQueue.receive, hq] at h ⊢
        simp [h]

/-! ### Claims on the queue -/

/-- C1 (FIFO): starting from an empty queue, `send(s1) ... send(sn)` followed by
`n` consecutive `receive()` calls returns `s1 ... sn` in exactly that order and
leaves the queue empty. -/
theorem fifo_send_then_receive {T : Type} (s : List T) :
    receiveN s.length (sendAll (MessageQueue.empty : MessageQueue T) s)
      = some (s, MessageQueue.empty) := by
  have h : sendAll (MessageQueue.empty : MessageQueue T) s = ⟨s ++ []⟩ := by
    have h1 := sendAll_queue s (MessageQueue.empty : MessageQueue T)
    cases hq : sendAll (MessageQueue.empty : MessageQueue T) s with
    | mk l =>
      rw [hq] at h1
      simp [MessageQueue.empty] at h1
      simp [h1]
  rw [h, receiveN_append]
  rfl

/-- C2 (no loss, no duplication): after any interleaving of atomic `send` and
`receive` steps by any producers and consumers on an initially empty queue, the
values returned by receives so far followed by the values still queued are
exactly the values sent so far, in send order; so the values returned are an
initial segment of the values sent, each handed to the one consumer recorded
with it, and the completed receives and the queued values together number the
sends. -/
theorem no_loss_no_duplication {T : Type} (ops : List (QueueOp T)) :
    (runOps ops MessageQueue.empty).1.map Prod.snd ++ (runOps ops MessageQueue.empty).2._queue
        = sentValues ops
      ∧ (runOps ops MessageQueue.empty).1.map Prod.snd <+: sentValues ops
      ∧ (runOps ops MessageQueue.empty).1.length
          + (runOps ops MessageQueue.empty).2._queue.length = (sentValues ops).length := by
  have h := runOps_conservation ops (MessageQueue.empty : MessageQueue T)
  simp only [MessageQueue.empty, List.nil_append] at h ⊢
  refine ⟨h, ⟨_, h⟩, ?_⟩
  rw [← h, List.length_append, List.length_map]

/-- C6 (receive is guarded and removes exactly the head): on an empty queue
`receive()` does not complete and leaves the queue unchanged, and completes with
`v` once `send(v)` has occurred; on `h :: t` it returns `h` and leaves exactly
`t`; whenever it completes, the queue it ran on was non-empty with the returned
value at its front. -/
theorem receive_guarded {T : Type} :
    ((⟨[]⟩ : MessageQueue T).receive = (none, ⟨[]⟩))
      ∧ (∀ v : T, ((⟨[]⟩ : MessageQueue T).send v).receive = (some v, ⟨[]⟩))
      ∧ (∀ (h : T) (t : List T), (⟨h :: t⟩ : MessageQueue T).receive = (some h, ⟨t⟩))
      ∧ (∀ (q q' : MessageQueue T) (v : T), q.receive = (some v, q') →
          q._queue ≠ [] ∧ q._queue = v :: q'._queue)
      ∧ (∀ (q q' : MessageQueue T), q.receive = (none, q') → q._queue = [] ∧ q' = q) := by
  refine ⟨rfl, fun _ => rfl, fun _ _ => rfl, ?_, ?_⟩
  · intro q q' v h
    cases hq : q._queue with
    | nil => simp [MessageQueue.receive, hq] at h
    | cons a rest =>
      simp only [MessageQueue.receive, hq, Prod.mk.injEq, Option.some.injEq] at h
      obtain ⟨h1, h2⟩ := h
      subst h1 h2
      simp
  · intro q q' h
    cases hq : q._queue with
    | nil =>
      simp only [MessageQueue.receive, hq, Prod.mk.injEq, true_and] at h
      exact ⟨rfl, h.symm⟩
    | cons a rest => simp [MessageQueue.receive, hq] at h

/-- C7 (send only appends): for every queue content `q` and value `v`, `send(v)`
yields a queue (it has no failing path) equal to `q` followed by `v`; the length
grows by exactly one and every element of `q` keeps its value and position. -/
theorem send_appends {T : Type} (q : MessageQueue T) (v : T) :
    (q.send v)._queue = q._queue ++ [v]
      ∧ (q.send v)._queue.length = q._queue.length + 1
      ∧ (∀ i, i < q._queue.length → (q.send v)._queue[i]? = q._queue[i]?)
      ∧ (q.send v)._queue[q._queue.length]? = some v := by
  refine ⟨rfl, by simp [MessageQueue.send], ?_, by simp [MessageQueue.send]⟩
  intro i hi
  simp [MessageQueue.send, List.getElem?_append_left hi]

/-! ### Lemmas on `waitForGreen` -/

theorem waitForGreenIteration_nil (ph : TrafficLightPhase) :
    (⟨ph, ⟨[]⟩⟩ : TrafficLight).waitForGreenIteration = WaitStep.blocked ⟨ph, ⟨[]⟩⟩ := rfl

theorem waitForGreenIteration_green (ph : TrafficLightPhase) (r : List TrafficLightPhase) :
    (⟨ph, ⟨TrafficLightPhase.green :: r⟩⟩ : TrafficLight).waitForGreenIteration
      = WaitStep.returned ⟨ph, ⟨r⟩⟩ := rfl

theorem waitForGreenIteration_red (ph : TrafficLightPhase) (r : List TrafficLightPhase) :
    (⟨ph, ⟨TrafficLightPhase.red :: r⟩⟩ : TrafficLight).waitForGreenIteration
      = WaitStep.again ⟨ph, ⟨r⟩⟩ := rfl

theorem waitForGreenLoop_returns (ph : TrafficLightPhase) (p r : List TrafficLightPhase)
    (hp : ∀ x ∈ p, x = TrafficLightPhase.red) (fuel n : Nat) (hfuel : p.length + 1 ≤ fuel) :
    (⟨ph, ⟨p ++ [TrafficLightPhase.green] ++ r⟩⟩ : TrafficLight).waitForGreenLoop fuel n
      = WaitOutcome.returned ⟨ph, ⟨r⟩⟩ (n + p.length + 1) := by
  induction p generalizing fuel n with
  | nil =>
    obtain ⟨k, rfl⟩ : ∃ k, fuel = k + 1 := ⟨fuel - 1, by simp at hfuel; omega⟩
    simp [TrafficLight.waitForGreenLoop, waitForGreenIteration_green]
  | cons a p ih =>
    obtain ⟨k, rfl⟩ : ∃ k, fuel = k + 1 := ⟨fuel - 1, by simp at hfuel; omega⟩
    have ha : a = TrafficLightPhase.red := hp a (by simp)
    subst ha
    have hk : p.length + 1 ≤ k := by simp at hfuel; omega
    have h := ih (fun x hx => hp x (by simp [hx])) k (n + 1) hk
    simp only [List.cons_append, TrafficLight.waitForGreenLoop, waitForGreenIteration_red,
      List.length_cons]
    rw [h]
    congr 1
    omega

theorem waitForGreenLoop_blocks (ph : TrafficLightPhase) (q : List TrafficLightPhase)
    (hq : TrafficLightPhase.green ∉ q) (fuel n : Nat) (hfuel : q.length + 1 ≤ fuel) :
    (⟨ph, ⟨q⟩⟩ : TrafficLight).waitForGreenLoop fuel n
      = WaitOutcome.blocked ⟨ph, ⟨[]⟩⟩ (n + q.length) := by
  induction q generalizing fuel n with
  | nil =>
    obtain ⟨k, rfl⟩ : ∃ k, fuel = k + 1 := ⟨fuel - 1, by simp at hfuel; omega⟩
    simp [TrafficLight.waitForGreenLoop, waitForGreenIteration_nil]
  | cons a q ih =>
    obtain ⟨k, rfl⟩ : ∃ k, fuel = k + 1 := ⟨fuel - 1, by simp at hfuel; omega⟩
    have ha : a = TrafficLightPhase.red := by
      cases a with
      | red => rfl
      | green => simp at hq
    subst ha
    have hk : q.length + 1 ≤ k := by simp at hfuel; omega
    have h := ih (fun hx => hq (by simp [hx])) k (n + 1) hk
    simp only [TrafficLight.waitForGreenLoop, waitForGreenIteration_red, List.length_cons]
    rw [h]
    congr 1
    omega

theorem waitForGreenLoop_never_returns (ph : TrafficLightPhase) (q : List TrafficLightPhase)
    (hq : TrafficLightPhase.green ∉ q) (fuel n : Nat) (l : TrafficLight) (m : Nat) :
    (⟨ph, ⟨q⟩⟩ : TrafficLight).waitForGreenLoop fuel n ≠ WaitOutcome.returned l m := by
  induction q generalizing fuel n with
  | nil =>
    cases fuel with
    | zero => simp [TrafficLight.waitForGreenLoop]
    | succ k => simp [TrafficLight.waitForGreenLoop, waitForGreenIteration_nil]
  | cons a q ih =>
    have ha : a = TrafficLightPhase.red := by
      cases a with
      | red => rfl
      | green => simp at hq
    subst ha
    cases fuel with
    | zero => simp [TrafficLight.waitForGreenLoop]
    | succ k =>
      simp only [TrafficLight.waitForGreenLoop, waitForGreenIteration_red]
      exact ih (fun hx => hq (by simp [hx])) k (n + 1)

/-! ### Claims on `waitForGreen` and on the fresh traffic light -/

/-- C4 (waitForGreen consumes up to and including the first green): on a queue
`p ++ [green] ++ r` with only red values in `p`, `waitForGreen()` returns after
exactly `|p| + 1` receives, whatever iteration bound of at least that many is
allowed, and leaves exactly `r` in the queue (the phase untouched); on a queue
`q` without green it never returns: it consumes all `|q|` values and is then
suspended in `receive()` on the empty queue. -/
theorem waitForGreen_consumes_to_first_green (ph : TrafficLightPhase)
    (p r q : List TrafficLightPhase)
    (hp : ∀ x ∈ p, x = TrafficLightPhase.red) (hq : TrafficLightPhase.green ∉ q) :
    (∀ fuel, p.length + 1 ≤ fuel →
        (⟨ph, ⟨p ++ [TrafficLightPhase.green] ++ r⟩⟩ : TrafficLight).waitForGreen fuel
          = WaitOutcome.returned ⟨ph, ⟨r⟩⟩ (p.length + 1))
      ∧ (∀ fuel l m, (⟨ph, ⟨q⟩⟩ : TrafficLight).waitForGreen fuel ≠ WaitOutcome.returned l m)
      ∧ (∀ fuel, q.length + 1 ≤ fuel →
          (⟨ph, ⟨q⟩⟩ : TrafficLight).waitForGreen fuel
            = WaitOutcome.blocked ⟨ph, ⟨[]⟩⟩ q.length) := by
  refine ⟨?_, ?_, ?_⟩
  · intro fuel hfuel
    have h := waitForGreenLoop_returns ph p r hp fuel 0 hfuel
    simpa [TrafficLight.waitForGreen] using h
  · intro fuel l m
    exact waitForGreenLoop_never_returns ph q hq fuel 0 l m
  · intro fuel hfuel
    have h := waitForGreenLoop_blocks ph q hq fuel 0 hfuel
    simpa [TrafficLight.waitForGreen] using h

/-- Witness for C4: two reds, a green, then a red and a green left over; and a
queue holding a single red. -/
theorem waitForGreen_consumes_to_first_green_witness :
    (∀ fuel, 2 + 1 ≤ fuel →
        (⟨TrafficLightPhase.red,
            ⟨[TrafficLightPhase.red, TrafficLightPhase.red] ++ [TrafficLightPhase.green]
              ++ [TrafficLightPhase.red, TrafficLightPhase.green]⟩⟩ : TrafficLight).waitForGreen fuel
          = WaitOutcome.returned
              ⟨TrafficLightPhase.red, ⟨[TrafficLightPhase.red, TrafficLightPhase.green]⟩⟩ (2 + 1))
      ∧ (∀ fuel l m,
          (⟨TrafficLightPhase.red, ⟨[TrafficLightPhase.red]⟩⟩ : TrafficLight).waitForGreen fuel
            ≠ WaitOutcome.returned l m)
      ∧ (∀ fuel, 1 + 1 ≤ fuel →
          (⟨TrafficLightPhase.red, ⟨[TrafficLightPhase.red]⟩⟩ : TrafficLight).waitForGreen fuel
            = WaitOutcome.blocked ⟨TrafficLightPhase.red, ⟨[]⟩⟩ 1) :=
  waitForGreen_consumes_to_first_green TrafficLightPhase.red
    [TrafficLightPhase.red, TrafficLightPhase.red]
    [TrafficLightPhase.red, TrafficLightPhase.green] [TrafficLightPhase.red]
    (by decide) (by decide)

/-! ### Lemmas on the cycling task -/

theorem cycleIteration_expired (tpm : Int) (t : Tick) (s : CycleState)
    (h : expired tpm t.now1 s = true) :
    cycleIteration tpm t s = publishPhase t.now2 t.draw (togglePhase s) := by
  simp [cycleIteration, h]

theorem cycleIteration_not_expired (tpm : Int) (t : Tick) (s : CycleState)
    (h : expired tpm t.now1 s = false) : cycleIteration tpm t s = s := by
  simp [cycleIteration, h]

theorem togglePhase_phase_ne (s : CycleState) :
    (togglePhase s).light._currentPhase ≠ s.light._currentPhase := by
  cases hph : s.light._currentPhase <;> simp [togglePhase, hph]

theorem togglePhase_of_red (s : CycleState) (h : s.light._currentPhase = TrafficLightPhase.red) :
    (togglePhase s).light._currentPhase = TrafficLightPhase.green := by
  simp [togglePhase, h]

theorem publishPhase_phase (now2 : Int) (draw : Draw) (s : CycleState) :
    (publishPhase now2 draw s).light._currentPhase = s.light._currentPhase := rfl

theorem publishPhase_queue (now2 : Int) (draw : Draw) (s : CycleState) :
    (publishPhase now2 draw s).light.queue._queue
      = s.light.queue._queue ++ [s.light._currentPhase] := rfl

theorem togglePhase_queue (s : CycleState) :
    (togglePhase s).light.queue = s.light.queue := rfl

theorem cycleLoop_cons (tpm : Int) (t : Tick) (ts : List Tick) (s : CycleState) :
    cycleLoop tpm (t :: ts) s = cycleLoop tpm ts (cycleIteration tpm t s) := rfl

theorem cycleLoop_nil (tpm : Int) (s : CycleState) : cycleLoop tpm [] s = s := rfl

theorem alternating_start (d0 : Draw) (t0 : Int) :
    Alternating (cycleStart d0 t0 TrafficLight.new) := by
  simp [Alternating, cycleStart, TrafficLight.new, MessageQueue.empty]

theorem alternating_iteration (tpm : Int) (t : Tick) (s : CycleState) (h : Alternating s) :
    Alternating (cycleIteration tpm t s) := by
  cases hexp : expired tpm t.now1 s with
  | false => rw [cycleIteration_not_expired tpm t s hexp]; exact h
  | true =>
    rw [cycleIteration_expired tpm t s hexp]
    obtain ⟨hchain, hhead, hlast, hnil⟩ := h
    refine ⟨?_, ?_, ?_, ?_⟩
    · rw [publishPhase_queue, togglePhase_queue]
      rw [List.chain'_append]
      refine ⟨hchain, List.chain'_singleton _, ?_⟩
      intro x hx y hy
      simp only [List.head?_cons, Option.mem_def, Option.some.injEq] at hy
      subst hy
      rw [hlast x hx]
      exact (togglePhase_phase_ne s).symm
    · intro x hx
      rw [publishPhase_queue, togglePhase_queue] at hx
      cases hq : s.light.queue._queue with
      | nil =>
        rw [hq] at hx
        simp only [List.nil_append, List.head?_cons, Option.some.injEq] at hx
        rw [← hx]
        exact togglePhase_of_red s (hnil hq)
      | cons a rest =>
        rw [hq] at hx
        simp only [List.cons_append, List.head?_cons, Option.some.injEq] at hx
        rw [← hx]
        exact hhead a (by simp [hq])
    · intro x hx
      rw [publishPhase_queue] at hx
      simp [List.getLast?_append] at hx
      rw [publishPhase_phase]
      exact hx.symm
    · intro hq
      rw [publishPhase_queue] at hq
      simp at hq

theorem alternating_loop (tpm : Int) (ticks : List Tick) (s : CycleState) (h : Alternating s) :
    Alternating (cycleLoop tpm ticks s) := by
  induction ticks generalizing s with
  | nil => exact h
  | cons t ts ih =>
    rw [cycleLoop_cons]
    exact ih _ (alternating_iteration tpm t s h)

theorem chain_ne_getElem (l : List TrafficLightPhase) (hc : l.Chain' (fun a b => a ≠ b))
    (hh : ∀ x, l.head? = some x → x = TrafficLightPhase.green) (i : Nat)
    (v : TrafficLightPhase) (hv : l[i]? = some v) :
    v = if i % 2 = 0 then TrafficLightPhase.green else TrafficLightPhase.red := by
  induction i generalizing v with
  | zero =>
    cases l with
    | nil => simp at hv
    | cons a rest =>
      simp only [List.getElem?_cons_zero, Option.some.injEq] at hv
      subst hv
      simpa using hh a (by simp)
  | succ i ih =>
    have hi : i < l.length := by
      have := (List.getElem?_eq_some_iff.mp hv).1
      omega
    have hprev := ih (l[i]) (by simp [List.getElem?_eq_getElem hi])
    have hi1 : i + 1 < l.length := (List.getElem?_eq_some_iff.mp hv).1
    have hne : l[i] ≠ l[i + 1] := (List.chain'_iff_get.mp hc) i (by omega)
    have hval : l[i + 1] = v := (List.getElem?_eq_some_iff.mp hv).2
    rw [hval] at hne
    by_cases hpar : i % 2 = 0
    · have h1 : (i + 1) % 2 ≠ 0 := by omega
      rw [if_pos hpar] at hprev
      rw [if_neg h1]
      cases v with
      | red => rfl
      | green => exact absurd hprev hne
    · have h1 : (i + 1) % 2 = 0 := by omega
      rw [if_neg hpar] at hprev
      rw [if_pos h1]
      cases v with
      | green => rfl
      | red => exact absurd hprev hne

theorem queue_eq_phaseHistory (tpm : Int) (ticks : List Tick) (s : CycleState) :
    (cycleLoop tpm ticks s).light.queue._queue
      = s.light.queue._queue ++ phaseHistory tpm ticks s := by
  induction ticks generalizing s with
  | nil => simp [cycleLoop_nil, phaseHistory]
  | cons t ts ih =>
    rw [cycleLoop_cons, ih, phaseHistory]
    cases hexp : expired tpm t.now1 s with
    | false =>
      rw [cycleIteration_not_expired tpm t s hexp]
      simp
    | true =>
      have hne : (cycleIteration tpm t s).light._currentPhase ≠ s.light._currentPhase := by
        rw [cycleIteration_expired tpm t s hexp, publishPhase_phase]
        exact togglePhase_phase_ne s
      rw [if_neg hne]
      rw [cycleIteration_expired tpm t s hexp, publishPhase_queue, togglePhase_queue,
        publishPhase_phase]
      simp

theorem phaseHistory_length (tpm : Int) (ticks : List Tick) (s : CycleState) :
    (phaseHistory tpm ticks s).length = toggles tpm ticks s := by
  induction ticks generalizing s with
  | nil => simp [phaseHistory, toggles]
  | cons t ts ih =>
    rw [phaseHistory, toggles, List.length_append, ih]
    cases hexp : expired tpm t.now1 s with
    | false =>
      rw [cycleIteration_not_expired tpm t s hexp]
      simp
    | true =>
      have hne : (cycleIteration tpm t s).light._currentPhase ≠ s.light._currentPhase := by
        rw [cycleIteration_expired tpm t s hexp, publishPhase_phase]
        exact togglePhase_phase_ne s
      rw [if_neg hne]
      simp

theorem toggles_zero_phase (tpm : Int) (ticks : List Tick) (s : CycleState)
    (h : toggles tpm ticks s = 0) : cycleLoop tpm ticks s = s := by
  induction ticks generalizing s with
  | nil => rfl
  | cons t ts ih =>
    rw [toggles] at h
    cases hexp : expired tpm t.now1 s with
    | false =>
      rw [cycleLoop_cons, cycleIteration_not_expired tpm t s hexp]
      rw [cycleIteration_not_expired tpm t s hexp] at h
      exact ih s (by simpa [hexp] using h)
    | true => simp [hexp] at h

/-! ### Timing of the cycling task -/

/-- C3 (phase alternation): for a fresh traffic light with a single cycling
task, after any number of loop iterations the sequence of phase values published
to the queue (its content, nobody receiving) has one entry per toggle, no two
consecutive entries are equal, and its first entry is green; so entry `i`
(counted from 0) is green for even `i` and red for odd `i`. -/
theorem published_phases_alternate (tpm : Int) (d0 : Draw) (t0 : Int) (ticks : List Tick) :
    (cycleThroughPhases tpm d0 t0 ticks TrafficLight.new).light.queue._queue.Chain'
        (fun a b => a ≠ b)
      ∧ (∀ x, (cycleThroughPhases tpm d0 t0 ticks TrafficLight.new).light.queue._queue.head?
            = some x → x = TrafficLightPhase.green)
      ∧ (∀ i v, (cycleThroughPhases tpm d0 t0 ticks TrafficLight.new).light.queue._queue[i]?
            = some v →
          v = if i % 2 = 0 then TrafficLightPhase.green else TrafficLightPhase.red)
      ∧ (cycleThroughPhases tpm d0 t0 ticks TrafficLight.new).light.queue._queue.length
          = toggles tpm ticks (TrafficLight.new.simulate d0 t0) := by
  have h := alternating_loop tpm ticks _ (alternating_start d0 t0)
  obtain ⟨hc, hh, _, _⟩ := h
  refine ⟨hc, hh, fun i v hv => chain_ne_getElem _ hc hh i v hv, ?_⟩
  have hq := queue_eq_phaseHistory tpm ticks (TrafficLight.new.simulate d0 t0)
  simp only [cycleThroughPhases]
  rw [hq, ← phaseHistory_length]
  simp [cycleStart, TrafficLight.new, MessageQueue.empty]

/-- C8 (initial state and pure read): a new traffic light has phase red and an
empty queue; `getCurrentPhase()` returns the stored phase and leaves the object
as it was; so after construction and `simulate()`, after any number of loop
iterations of the cycling task none of which toggled, `getCurrentPhase()`
returns red. -/
theorem fresh_light_reads_red :
    TrafficLight.new._currentPhase = TrafficLightPhase.red
      ∧ TrafficLight.new.queue._queue = []
      ∧ (∀ l : TrafficLight, l.getCurrentPhase = (l._currentPhase, l))
      ∧ (∀ (tpm : Int) (d0 : Draw) (t0 : Int) (ticks : List Tick),
          toggles tpm ticks (TrafficLight.new.simulate d0 t0) = 0 →
          (cycleThroughPhases tpm d0 t0 ticks TrafficLight.new).light.getCurrentPhase.1
            = TrafficLightPhase.red) := by
  refine ⟨rfl, rfl, fun _ => rfl, ?_⟩
  intro tpm d0 t0 ticks h
  simp only [cycleThroughPhases]
  rw [toggles_zero_phase tpm ticks _ h]
  rfl

/-- C10 (publication order matches toggle order): for a fresh traffic light with
a single cycling task, after any number of loop iterations the sequence of
values published to the queue is exactly the sequence of values the current
phase has taken, one per toggle; the current phase equals the most recently
published value when there is one, and while there has been no toggle nothing is
published and the phase is red.  In any state, an iteration that publishes
appends the phase it has just set, and only that. -/
theorem publication_matches_toggles (tpm : Int) (d0 : Draw) (t0 : Int) (ticks : List Tick) :
    (cycleThroughPhases tpm d0 t0 ticks TrafficLight.new).light.queue._queue
        = phaseHistory tpm ticks (TrafficLight.new.simulate d0 t0)
      ∧ (cycleThroughPhases tpm d0 t0 ticks TrafficLight.new).light.queue._queue.length
          = toggles tpm ticks (TrafficLight.new.simulate d0 t0)
      ∧ (∀ x, (cycleThroughPhases tpm d0 t0 ticks TrafficLight.new).light.queue._queue.getLast?
            = some x →
          (cycleThroughPhases tpm d0 t0 ticks TrafficLight.new).light._currentPhase = x)
      ∧ (toggles tpm ticks (TrafficLight.new.simulate d0 t0) = 0 →
          (cycleThroughPhases tpm d0 t0 ticks TrafficLight.new).light.queue._queue = []
            ∧ (cycleThroughPhases tpm d0 t0 ticks TrafficLight.new).light._currentPhase
              = TrafficLightPhase.red)
      ∧ (∀ (t : Tick) (s : CycleState), expired tpm t.now1 s = true →
          (cycleIteration tpm t s).light.queue._queue
            = s.light.queue._queue ++ [(cycleIteration tpm t s).light._currentPhase]) := by
  have hq := queue_eq_phaseHistory tpm ticks (TrafficLight.new.simulate d0 t0)
  have hq' : (cycleThroughPhases tpm d0 t0 ticks TrafficLight.new).light.queue._queue
      = phaseHistory tpm ticks (TrafficLight.new.simulate d0 t0) := by
    simp only [cycleThroughPhases]
    rw [hq]
    simp [cycleStart, TrafficLight.new, MessageQueue.empty]
  obtain ⟨_, _, hlast, _⟩ := alternating_loop tpm ticks _ (alternating_start d0 t0)
  refine ⟨hq', ?_, ?_, ?_, ?_⟩
  · rw [hq', phaseHistory_length]
  · intro x hx
    exact (hlast x hx).symm
  · intro h0
    simp only [cycleThroughPhases]
    rw [toggles_zero_phase tpm ticks _ h0]
    exact ⟨rfl, rfl⟩
  · intro t s hexp
    rw [cycleIteration_expired tpm t s hexp]
    rfl

theorem run_cons (tpm : Int) (e : Event) (es : List Event) (s : System) :
    System.run tpm (e :: es) s = System.run tpm es (System.step tpm e s) := rfl

theorem systemInv_init (d0 : Draw) (t0 : Int) : SystemInv (System.init d0 t0) [] := by
  refine ⟨⟨[], rfl⟩, ?_, ?_, ?_, ?_, ?_⟩ <;>
    simp [System.init, cycleStart, TrafficLight.new, MessageQueue.empty]

theorem systemInv_toggle (tpm now1 : Int) (s : System) (pub : List TrafficLightPhase)
    (h : SystemInv s pub) :
    SystemInv (System.step tpm (Event.toggle now1) s)
      (pub ++ publishedBy tpm (Event.toggle now1) s) := by
  obtain ⟨h3, h1, h4, h5, h6, h2⟩ := h
  cases hp : s.pending with
  | true =>
    have hs : System.step tpm (Event.toggle now1) s = s := by simp [System.step, hp]
    simp only [publishedBy, hs, List.drop_length, List.append_nil]
    exact ⟨h3, h1, h4, h5, h6, h2⟩
  | false =>
    cases hexp : expired tpm now1 s.cyc with
    | false =>
      have hs : System.step tpm (Event.toggle now1) s = s := by simp [System.step, hp, hexp]
      simp only [publishedBy, hs, List.drop_length, List.append_nil]
      exact ⟨h3, h1, h4, h5, h6, h2⟩
    | true =>
      have hs : System.step tpm (Event.toggle now1) s
          = { s with cyc := togglePhase s.cyc, pending := true } := by
        simp [System.step, hp, hexp]
      simp only [publishedBy, hs, togglePhase_queue, List.drop_length, List.append_nil]
      refine ⟨h3, ?_, ?_, h5, h6, h2⟩
      · intro hf
        simp at hf
      · intro hnil
        refine ⟨fun hf => by simp at hf, fun _ => ?_⟩
        exact togglePhase_of_red s.cyc ((h4 hnil).1 hp)

theorem systemInv_publish (tpm now2 : Int) (draw : Draw) (s : System)
    (pub : List TrafficLightPhase) (h : SystemInv s pub) :
    SystemInv (System.step tpm (Event.publish now2 draw) s)
      (pub ++ publishedBy tpm (Event.publish now2 draw) s) := by
  obtain ⟨h3, h1, h4, h5, h6, h2⟩ := h
  cases hp : s.pending with
  | false =>
    have hs : System.step tpm (Event.publish now2 draw) s = s := by simp [System.step, hp]
    simp only [publishedBy, hs, List.drop_length, List.append_nil]
    exact ⟨h3, h1, h4, h5, h6, h2⟩
  | true =>
    have hs : System.step tpm (Event.publish now2 draw) s
        = { s with cyc := publishPhase now2 draw s.cyc, pending := false } := by
      simp [System.step, hp]
    have hpub : publishedBy tpm (Event.publish now2 draw) s = [s.cyc.light._currentPhase] := by
      simp [publishedBy, hs, publishPhase_queue]
    rw [hpub, hs]
    obtain ⟨pre, hpre⟩ := h3
    refine ⟨⟨pre, ?_⟩, ?_, ?_, ?_, ?_, ?_⟩
    · simp [publishPhase_queue, hpre]
    · intro _ x hx
      simp [List.getLast?_append] at hx
      simp [publishPhase_phase, hx]
    · intro hnil
      simp at hnil
    · intro x hx
      cases hpubl : pub with
      | nil =>
        rw [hpubl] at hx
        simp only [List.nil_append, List.head?_cons, Option.some.injEq] at hx
        rw [← hx]
        exact (h4 hpubl).2 hp
      | cons a rest =>
        rw [hpubl] at hx
        simp only [List.cons_append, List.head?_cons, Option.some.injEq] at hx
        rw [← hx]
        exact h5 a (by simp [hpubl])
    · intro _
      simp
    · intro _ hq
      simp [publishPhase_queue] at hq

theorem systemInv_waiter (tpm : Int) (s : System) (pub : List TrafficLightPhase)
    (h : SystemInv s pub) :
    SystemInv (System.step tpm Event.waiter s) (pub ++ publishedBy tpm Event.waiter s) := by
  obtain ⟨h3, h1, h4, h5, h6, h2⟩ := h
  cases hw : s.waiterDone with
  | true =>
    have hs : System.step tpm Event.waiter s = s := by simp [System.step, hw]
    simp only [publishedBy, hs, List.drop_length, List.append_nil]
    exact ⟨h3, h1, h4, h5, h6, h2⟩
  | false =>
    cases hq : s.cyc.light.queue._queue with
    | nil =>
      have hs : System.step tpm Event.waiter s = s := by
        simp only [System.step, hw, TrafficLight.waitForGreenIteration, MessageQueue.receive, hq]
        obtain ⟨⟨⟨ph, q⟩, d, pr⟩, p, w⟩ := s
        simp only at hw
        simp [hw]
      simp only [publishedBy, hs, List.drop_length, List.append_nil]
      exact ⟨h3, h1, h4, h5, h6, h2⟩
    | cons a rest =>
      obtain ⟨pre, hpre⟩ := h3
      rw [hq] at hpre
      cases a with
      | green =>
        have hs : System.step tpm Event.waiter s
            = { s with cyc := { s.cyc with light := { s.cyc.light with queue := ⟨rest⟩ } },
                       waiterDone := true } := by
          simp [System.step, hw, TrafficLight.waitForGreenIteration, MessageQueue.receive, hq]
        have hpub : publishedBy tpm Event.waiter s = [] := by
          simp [publishedBy, hs, hq]
        rw [hpub, hs, List.append_nil]
        refine ⟨⟨pre ++ [TrafficLightPhase.green], by simp [hpre]⟩, h1, h4, h5, ?_, ?_⟩
        · intro _
          simp [hpre]
        · intro _ hrest
          simp only at hrest
          subst hrest
          simp [hpre, List.getLast?_append]
      | red =>
        have hs : System.step tpm Event.waiter s
            = { s with cyc := { s.cyc with light := { s.cyc.light with queue := ⟨rest⟩ } } } := by
          simp [System.step, hw, TrafficLight.waitForGreenIteration, MessageQueue.receive, hq]
        have hpub : publishedBy tpm Event.waiter s = [] := by
          simp [publishedBy, hs, hq]
        rw [hpub, hs, List.append_nil]
        refine ⟨⟨pre ++ [TrafficLightPhase.red], by simp [hpre]⟩, h1, h4, h5, ?_, ?_⟩
        · intro hf
          simp [hw] at hf
        · intro hf
          simp [hw] at hf

theorem systemInv_step (tpm : Int) (e : Event) (s : System) (pub : List TrafficLightPhase)
    (h : SystemInv s pub) :
    SystemInv (System.step tpm e s) (pub ++ publishedBy tpm e s) := by
  cases e with
  | toggle now1 => exact systemInv_toggle tpm now1 s pub h
  | publish now2 draw => exact systemInv_publish tpm now2 draw s pub h
  | waiter => exact systemInv_waiter tpm s pub h

theorem systemInv_run (tpm : Int) (es : List Event) (s : System) (pub : List TrafficLightPhase)
    (h : SystemInv s pub) :
    SystemInv (System.run tpm es s) (pub ++ published tpm es s) := by
  induction es generalizing s pub with
  | nil => simpa [System.run, published] using h
  | cons e es ih =>
    rw [run_cons, published, ← List.append_assoc]
    exact ih _ _ (systemInv_step tpm e s pub h)

/-! ### Claim on the single waiter -/

/-- C5 as stated fails: in `lateExecution` the waiter is suspended on the empty
queue before any toggle, has not returned after the two toggles, returns at its
next step (it receives the green published first, red staying queued), and
`getCurrentPhase()` called right then yields red. -/
theorem single_waiter_late_reads_red :
    (System.run 1000000 lateExecution.dropLast (System.init draw4000 0)).waiterDone = false
      ∧ (System.run 1000000 lateExecution (System.init draw4000 0)).waiterDone = true
      ∧ (System.run 1000000 lateExecution (System.init draw4000 0)).cyc.light.getCurrentPhase.1
          = TrafficLightPhase.red
      ∧ (System.run 1000000 lateExecution (System.init draw4000 0)).cyc.light.queue._queue
          = [TrafficLightPhase.red]
      ∧ published 1000000 lateExecution (System.init draw4000 0)
          = [TrafficLightPhase.green, TrafficLightPhase.red] := by
  decide

/-- C5, amended: in every execution of one cycling task and one caller of
`waitForGreen` on a fresh traffic light, once `waitForGreen` has returned a
value has been published and the first published value is green (it does not
return before the first toggle to green has been published); and
`getCurrentPhase()` then yields green provided the cycling task has not toggled
since the green that was received: no toggle awaits its `send` and the queue is
empty. -/
theorem single_waiter_returns_after_green (tpm : Int) (d0 : Draw) (t0 : Int) (es : List Event)
    (hdone : (System.run tpm es (System.init d0 t0)).waiterDone = true) :
    (∃ rest, published tpm es (System.init d0 t0) = TrafficLightPhase.green :: rest)
      ∧ ((System.run tpm es (System.init d0 t0)).pending = false →
          (System.run tpm es (System.init d0 t0)).cyc.light.queue._queue = [] →
          (System.run tpm es (System.init d0 t0)).cyc.light.getCurrentPhase.1
            = TrafficLightPhase.green) := by
  have h := systemInv_run tpm es _ [] (systemInv_init d0 t0)
  rw [List.nil_append] at h
  obtain ⟨_, h1, _, h5, h6, h2⟩ := h
  constructor
  · cases hpub : published tpm es (System.init d0 t0) with
    | nil => exact absurd hpub (h6 hdone)
    | cons a rest =>
      have ha : a = TrafficLightPhase.green := h5 a (by simp [hpub])
      exact ⟨rest, by rw [ha]⟩
  · intro hp hq
    exact (h1 hp _ (h2 hdone hq)).symm

/-- Witness for C5: in `promptExecution` the waiter has returned, no toggle is
pending and the queue is empty. -/
theorem single_waiter_returns_after_green_witness :
    (System.run 1000000 promptExecution (System.init draw4000 0)).waiterDone = true
      ∧ (System.run 1000000 promptExecution (System.init draw4000 0)).pending = false
      ∧ (System.run 1000000 promptExecution (System.init draw4000 0)).cyc.light.queue._queue = []
      ∧ (System.run 1000000 promptExecution (System.init draw4000 0)).cyc.light.getCurrentPhase.1
          = TrafficLightPhase.green :=
  ⟨by decide, by decide, by decide,
    (single_waiter_returns_after_green 1000000 draw4000 0 promptExecution (by decide)).2
      (by decide) (by decide)⟩

end TrafficSim
